import Mathlib

/-!
Shallow embedding of `src/lib.rs` of the `sdr-rust` repository: a circular
(angular) mean of `(angle_degrees, magnitude)` readings, in three variants
(`average`, `average_with_trig`, `average_optimized`).

`f64` arithmetic is modelled by idealized real arithmetic (`ℝ`, `ℂ`).
The places where the `f64` code produces non-finite values (NaN/±Inf) are
modelled separately by `Option`-valued "checked" variants: `none` marks a
call whose returned pair contains a non-finite component.
-/

namespace Sdr

noncomputable section

open Real
open Classical

/-- The constant `TAU` from `src/lib.rs`: `2.0 * PI`. -/
def tau : ℝ := 2 * Real.pi

/-- `create_degrees_base` from `src/lib.rs`:
`Complex::new(0.0, TAU / 360.0).exp()`, i.e. `e^{i·τ/360}`, the one-degree
rotation constant. -/
def create_degrees_base : ℂ := Complex.exp ((tau / 360 : ℝ) * Complex.I)

/-- `num_complex`'s `Complex::<f64>::powf(self, exp)`: computed in polar form as
`from_polar(norm.powf(exp), arg * exp)`, i.e. `|z|^e · e^{i·arg(z)·e}`.
The real `powf` on the non-negative norm is modelled by `Real.rpow`. -/
def cpowf (z : ℂ) (e : ℝ) : ℂ :=
  ((Complex.abs z ^ e : ℝ) : ℂ) * Complex.exp ((Complex.arg z * e : ℝ) * Complex.I)

/-- Rust `f64::atan2`: `y.atan2(x)` is the principal argument of the complex
number `x + y·i`, valued in `(-π, π]`; modelled by Mathlib's `Complex.arg`.
(`num_complex`'s `Complex::ln(z) = (z.norm().ln(), z.im.atan2(z.re))` is then
exactly Mathlib's principal `Complex.log`.) -/
def atan2 (y x : ℝ) : ℝ := Complex.arg ((x : ℂ) + (y : ℂ) * Complex.I)

/-- `angle_mag_to_complex` from `src/lib.rs`: `base.powf(*angle) * *magnitude`. -/
def angle_mag_to_complex (am : ℝ × ℝ) (base : ℂ) : ℂ :=
  cpowf base am.1 * (am.2 : ℂ)

/-- The `total` accumulated in `average`:
`readings.iter().map(|am| angle_mag_to_complex(am, base)).sum()`. -/
def total_of (readings : List (ℝ × ℝ)) : ℂ :=
  (readings.map (fun am => angle_mag_to_complex am create_degrees_base)).sum

/-- `average` from `src/lib.rs` (Variant A, complex-exponential form):
sum the `angle_mag_to_complex` images, divide by the reading count, recover
the angle as `(result.ln() / base.ln()).re` and the magnitude as
`result.norm()`. -/
def average (readings : List (ℝ × ℝ)) : ℝ × ℝ :=
  let result : ℂ := total_of readings / (readings.length : ℂ)
  ((Complex.log result / Complex.log create_degrees_base).re, Complex.abs result)

/-- `reading_to_axis` from `src/lib.rs`: degrees to radians, then
`(cos · magnitude, sin · magnitude)`. -/
def reading_to_axis (am : ℝ × ℝ) : ℝ × ℝ :=
  let angle_radians := am.1 * Real.pi / 180
  (Real.cos angle_radians * am.2, Real.sin angle_radians * am.2)

/-- The `(sum_x, sum_y)` fold of `average_with_trig`:
`readings.iter().map(reading_to_axis).fold((0.0, 0.0), |(sx, sy), (x, y)| (sx + x, sy + y))`. -/
def trig_sums (readings : List (ℝ × ℝ)) : ℝ × ℝ :=
  (readings.map reading_to_axis).foldl
    (fun sxy xy => (sxy.1 + xy.1, sxy.2 + xy.2)) ((0 : ℝ), (0 : ℝ))

/-- `average_with_trig` from `src/lib.rs` (Variant B, trigonometric form):
fold the Cartesian projections, normalize `(sum_x, sum_y)` by
`sqrt(sum_x² + sum_y²)`, then `angle = sum_y.atan2(sum_x)` in degrees and
`magnitude = sqrt(sum_x² + sum_y²)` of the normalized sums. -/
def average_with_trig (readings : List (ℝ × ℝ)) : ℝ × ℝ :=
  let s := trig_sums readings
  let sum_magnitude := Real.sqrt (s.1 ^ 2 + s.2 ^ 2)
  let sn : ℝ × ℝ := (s.1 / sum_magnitude, s.2 / sum_magnitude)
  let angle := atan2 sn.2 sn.1
  let magnitude := Real.sqrt (sn.1 ^ 2 + sn.2 ^ 2)
  (angle * 180 / Real.pi, magnitude)

/-- The `total` accumulated in `average_optimized`:
`readings.iter().fold(Complex::new(0.0, 0.0), |acc, &(angle, magnitude)| acc + magnitude * base.powf(angle))`. -/
def total_opt (readings : List (ℝ × ℝ)) : ℂ :=
  readings.foldl (fun acc am => acc + (am.2 : ℂ) * cpowf create_degrees_base am.1) 0

/-- `average_optimized` from `src/lib.rs` (Variant C, single-pass form): same
resolution as `average`, but the total is accumulated by a single fold. -/
def average_optimized (readings : List (ℝ × ℝ)) : ℝ × ℝ :=
  let result : ℂ := total_opt readings / (readings.length : ℂ)
  ((Complex.log result / Complex.log create_degrees_base).re, Complex.abs result)

/-- `average` with the two non-finite `f64` code paths made explicit.
With `readings.len() == 0` the division `total / 0.0` produces non-finite
(NaN/±Inf) components; with an exactly zero total, `result.ln()` has real part
`-∞` (`ln(0)`), so the angle produced by the division by `base.ln()` is
NaN/±Inf. `none` marks the calls whose returned pair contains a non-finite
component; every other call returns the same finite pair as `average`. -/
def average_checked (readings : List (ℝ × ℝ)) : Option (ℝ × ℝ) :=
  if readings.length = 0 then none
  else if total_of readings = 0 then none
  else some (average readings)

/-- `average_with_trig` with its non-finite `f64` code path made explicit:
when `(sum_x, sum_y)` is exactly `(0, 0)` (in particular on empty input),
`sum_magnitude` is `0`, the normalization computes `0.0 / 0.0 = NaN`, and NaN
propagates into both returned components. -/
def average_with_trig_checked (readings : List (ℝ × ℝ)) : Option (ℝ × ℝ) :=
  if trig_sums readings = ((0 : ℝ), (0 : ℝ)) then none
  else some (average_with_trig readings)

/-- `average_optimized` with the same two non-finite `f64` code paths as
`average_checked` (division by a zero count; `ln` of a zero total). -/
def average_optimized_checked (readings : List (ℝ × ℝ)) : Option (ℝ × ℝ) :=
  if readings.length = 0 then none
  else if total_opt readings = 0 then none
  else some (average_optimized readings)

/-- The claim's notion of "θ reduced modulo 360 into `(-180, 180]`"
(spec-side definition, for comparison with the code's output). -/
def normalize_deg (θ : ℝ) : ℝ :=
  toIocMod (by norm_num : (0 : ℝ) < 360) (-180) θ

/-! ### Facts about the rotation base -/

lemma tau_div_360 : tau / 360 = Real.pi / 180 := by
  rw [tau]; ring

lemma abs_base : Complex.abs create_degrees_base = 1 := by
  rw [create_degrees_base]; exact Complex.abs_exp_ofReal_mul_I _

lemma log_base :
    Complex.log create_degrees_base = ((Real.pi / 180 : ℝ) : ℂ) * Complex.I := by
  have him : (((tau / 360 : ℝ) : ℂ) * Complex.I).im = tau / 360 := by simp
  rw [create_degrees_base,
    Complex.log_exp (by rw [him, tau_div_360]; linarith [Real.pi_pos])
      (by rw [him, tau_div_360]; linarith [Real.pi_pos])]
  norm_num [tau_div_360]

lemma arg_base : Complex.arg create_degrees_base = Real.pi / 180 := by
  rw [← Complex.log_im, log_base]
  simp

lemma cpowf_base (θ : ℝ) :
    cpowf create_degrees_base θ
      = Complex.exp (((θ * Real.pi / 180 : ℝ) : ℂ) * Complex.I) := by
  rw [cpowf, abs_base, arg_base, Real.one_rpow]
  norm_num
  congr 2
  ring

/-- The resolution phase of Variants A and C: the real part of
`ln(z) / ln(base)` is the principal argument of `z` converted to degrees. -/
lemma resolve_re (z : ℂ) :
    (Complex.log z / Complex.log create_degrees_base).re
      = Complex.arg z * 180 / Real.pi := by
  have hπ := Real.pi_ne_zero
  rw [log_base, Complex.div_re]
  simp [Complex.normSq_apply, Complex.log_im]
  field_simp
  ring

/-! ### Fold / sum bridges between the three variants -/

lemma foldl_pairs (l : List (ℝ × ℝ)) (a b : ℝ) :
    l.foldl (fun sxy xy => (sxy.1 + xy.1, sxy.2 + xy.2)) (a, b)
      = (a + (l.map Prod.fst).sum, b + (l.map Prod.snd).sum) := by
  induction l generalizing a b with
  | nil => simp
  | cons x xs ih => simp [ih, add_assoc]

lemma trig_sums_eq (r : List (ℝ × ℝ)) :
    trig_sums r
      = (((r.map reading_to_axis).map Prod.fst).sum,
         ((r.map reading_to_axis).map Prod.snd).sum) := by
  rw [trig_sums, foldl_pairs]
  simp

lemma total_opt_fold (r : List (ℝ × ℝ)) (c : ℂ) :
    r.foldl (fun acc am => acc + (am.2 : ℂ) * cpowf create_degrees_base am.1) c
      = c + (r.map (fun am => angle_mag_to_complex am create_degrees_base)).sum := by
  induction r generalizing c with
  | nil => simp
  | cons x xs ih =>
      rw [List.foldl_cons, ih, List.map_cons, List.sum_cons, angle_mag_to_complex]
      ring

lemma total_opt_eq (r : List (ℝ × ℝ)) : total_opt r = total_of r := by
  rw [total_opt, total_of, total_opt_fold, zero_add]

lemma angle_mag_re (am : ℝ × ℝ) :
    (angle_mag_to_complex am create_degrees_base).re = (reading_to_axis am).1 := by
  rw [angle_mag_to_complex, cpowf_base, reading_to_axis]
  rw [Complex.mul_re, Complex.exp_ofReal_mul_I_re, Complex.exp_ofReal_mul_I_im]
  simp

lemma angle_mag_im (am : ℝ × ℝ) :
    (angle_mag_to_complex am create_degrees_base).im = (reading_to_axis am).2 := by
  rw [angle_mag_to_complex, cpowf_base, reading_to_axis]
  rw [Complex.mul_im, Complex.exp_ofReal_mul_I_re, Complex.exp_ofReal_mul_I_im]
  simp

lemma sums_x (r : List (ℝ × ℝ)) :
    ((r.map reading_to_axis).map Prod.fst).sum = (total_of r).re := by
  rw [total_of]
  induction r with
  | nil => simp
  | cons x xs ih =>
      simp only [List.map_cons, List.sum_cons, Complex.add_re, ih, angle_mag_re]

lemma sums_y (r : List (ℝ × ℝ)) :
    ((r.map reading_to_axis).map Prod.snd).sum = (total_of r).im := by
  rw [total_of]
  induction r with
  | nil => simp
  | cons x xs ih =>
      simp only [List.map_cons, List.sum_cons, Complex.add_im, ih, angle_mag_im]

lemma trig_sums_fst (r : List (ℝ × ℝ)) : (trig_sums r).1 = (total_of r).re := by
  rw [trig_sums_eq]
  exact sums_x r

lemma trig_sums_snd (r : List (ℝ × ℝ)) : (trig_sums r).2 = (total_of r).im := by
  rw [trig_sums_eq]
  exact sums_y r

lemma total_eq_sums (r : List (ℝ × ℝ)) :
    ((trig_sums r).1 : ℂ) + ((trig_sums r).2 : ℂ) * Complex.I = total_of r := by
  rw [trig_sums_fst, trig_sums_snd, Complex.re_add_im]

lemma total_ne_zero_iff (r : List (ℝ × ℝ)) :
    total_of r ≠ 0 ↔ trig_sums r ≠ ((0 : ℝ), (0 : ℝ)) := by
  rw [not_iff_not, Prod.ext_iff, Complex.ext_iff]
  rw [trig_sums_fst, trig_sums_snd]
  simp

/-! ### Unfolded forms of the three variants -/

lemma average_def (r : List (ℝ × ℝ)) :
    average r
      = ((Complex.log (total_of r / (r.length : ℂ))
            / Complex.log create_degrees_base).re,
         Complex.abs (total_of r / (r.length : ℂ))) := rfl

lemma average_optimized_def (r : List (ℝ × ℝ)) :
    average_optimized r
      = ((Complex.log (total_opt r / (r.length : ℂ))
            / Complex.log create_degrees_base).re,
         Complex.abs (total_opt r / (r.length : ℂ))) := rfl

lemma average_with_trig_def (r : List (ℝ × ℝ)) :
    average_with_trig r
      = (atan2
            ((trig_sums r).2 / Real.sqrt ((trig_sums r).1 ^ 2 + (trig_sums r).2 ^ 2))
            ((trig_sums r).1 / Real.sqrt ((trig_sums r).1 ^ 2 + (trig_sums r).2 ^ 2))
            * 180 / Real.pi,
         Real.sqrt
           (((trig_sums r).1 / Real.sqrt ((trig_sums r).1 ^ 2 + (trig_sums r).2 ^ 2)) ^ 2
            + ((trig_sums r).2 / Real.sqrt ((trig_sums r).1 ^ 2 + (trig_sums r).2 ^ 2)) ^ 2)) :=
  rfl

/-! ### The resolution phase, pointwise -/

lemma arg_div_count (z : ℂ) (n : ℕ) (hn : n ≠ 0) :
    Complex.arg (z / (n : ℂ)) = Complex.arg z := by
  have hpos : (0 : ℝ) < ((n : ℝ))⁻¹ := by
    have hn0 : (0 : ℝ) < (n : ℝ) := by exact_mod_cast Nat.pos_of_ne_zero hn
    positivity
  have e : z / (n : ℂ) = (((n : ℝ)⁻¹ : ℝ) : ℂ) * z := by
    push_cast
    rw [div_eq_inv_mul]
  rw [e, Complex.arg_real_mul _ hpos]

lemma abs_div_count (z : ℂ) (n : ℕ) :
    Complex.abs (z / (n : ℂ)) = Complex.abs z / n := by
  rw [map_div₀, Complex.abs_natCast]

lemma sums_sq_pos (r : List (ℝ × ℝ)) (hs : trig_sums r ≠ ((0 : ℝ), (0 : ℝ))) :
    0 < (trig_sums r).1 ^ 2 + (trig_sums r).2 ^ 2 := by
  rcases eq_or_ne (trig_sums r).1 0 with h1 | h1
  · have h2 : (trig_sums r).2 ≠ 0 := fun h2 => hs (Prod.ext_iff.mpr ⟨h1, h2⟩)
    have h2p : 0 < (trig_sums r).2 ^ 2 :=
      lt_of_le_of_ne (sq_nonneg _) (Ne.symm (pow_ne_zero 2 h2))
    have := sq_nonneg (trig_sums r).1
    linarith
  · have h1p : 0 < (trig_sums r).1 ^ 2 :=
      lt_of_le_of_ne (sq_nonneg _) (Ne.symm (pow_ne_zero 2 h1))
    have := sq_nonneg (trig_sums r).2
    linarith

/-- Variant B's extra normalization forces its returned magnitude to `1`
whenever the summed vector is nonzero. -/
lemma trig_mag_one (r : List (ℝ × ℝ)) (hs : trig_sums r ≠ ((0 : ℝ), (0 : ℝ))) :
    (average_with_trig r).2 = 1 := by
  have hpos := sums_sq_pos r hs
  rw [average_with_trig_def]
  have hsq : Real.sqrt ((trig_sums r).1 ^ 2 + (trig_sums r).2 ^ 2) ^ 2
      = (trig_sums r).1 ^ 2 + (trig_sums r).2 ^ 2 := Real.sq_sqrt hpos.le
  simp only
  rw [div_pow, div_pow, div_add_div_same, hsq, div_self hpos.ne']
  exact Real.sqrt_one

/-- Variant A's returned angle is the principal argument of the total, in
degrees. -/
lemma average_angle_arg (r : List (ℝ × ℝ)) (hr : r ≠ []) :
    (average r).1 = Complex.arg (total_of r) * 180 / Real.pi := by
  rw [average_def]
  simp only
  rw [resolve_re, arg_div_count _ _ (fun h => hr (List.length_eq_zero.mp h))]

/-- Variant A's returned magnitude is the modulus of the total divided by the
reading count. -/
lemma average_mag_abs (r : List (ℝ × ℝ)) :
    (average r).2 = Complex.abs (total_of r) / r.length := by
  rw [average_def]
  simp only
  rw [abs_div_count]

/-- Variant B's returned angle is also the principal argument of (Variant A's)
total, in degrees, whenever that total is nonzero. -/
lemma trig_angle_arg (r : List (ℝ × ℝ)) (ht : total_of r ≠ 0) :
    (average_with_trig r).1 = Complex.arg (total_of r) * 180 / Real.pi := by
  have hs := (total_ne_zero_iff r).mp ht
  have hpos := sums_sq_pos r hs
  have hM : 0 < Real.sqrt ((trig_sums r).1 ^ 2 + (trig_sums r).2 ^ 2) :=
    Real.sqrt_pos.mpr hpos
  rw [average_with_trig_def]
  simp only
  congr 2
  rw [atan2]
  have e : (((trig_sums r).1 / Real.sqrt ((trig_sums r).1 ^ 2 + (trig_sums r).2 ^ 2) : ℝ) : ℂ)
        + (((trig_sums r).2 / Real.sqrt ((trig_sums r).1 ^ 2 + (trig_sums r).2 ^ 2) : ℝ) : ℂ)
          * Complex.I
      = (((Real.sqrt ((trig_sums r).1 ^ 2 + (trig_sums r).2 ^ 2))⁻¹ : ℝ) : ℂ)
          * (((trig_sums r).1 : ℂ) + ((trig_sums r).2 : ℂ) * Complex.I) := by
    push_cast
    ring
  rw [e, total_eq_sums, Complex.arg_real_mul _ (inv_pos.mpr hM)]

/-- `average_optimized` and `average` coincide on every input. -/
lemma opt_eq_avg (r : List (ℝ × ℝ)) : average_optimized r = average r := by
  rw [average_optimized_def, average_def, total_opt_eq]

/-! ### Angle normalization -/

lemma arg_exp_deg (θ : ℝ) :
    Complex.arg (Complex.exp (((θ * Real.pi / 180 : ℝ) : ℂ) * Complex.I))
      = normalize_deg θ * Real.pi / 180 := by
  rw [Complex.arg_exp_mul_I, normalize_deg]
  have h360 : (0 : ℝ) < 360 := by norm_num
  have hmem := toIocMod_mem_Ioc h360 (-180) θ
  rw [Set.mem_Ioc] at hmem
  obtain ⟨h1, h2⟩ := hmem
  have h2' : toIocMod h360 (-180) θ ≤ 180 := by linarith
  rw [toIocMod_eq_iff]
  refine ⟨Set.mem_Ioc.mpr ⟨?_, ?_⟩, ⟨toIocDiv h360 (-180) θ, ?_⟩⟩
  · nlinarith [Real.pi_pos]
  · nlinarith [Real.pi_pos]
  · have hdiv := toIocMod_add_toIocDiv_zsmul h360 (-180) θ
    rw [zsmul_eq_mul] at hdiv ⊢
    linear_combination (Real.pi / 180) * hdiv.symm

lemma arg_angle_mag (am : ℝ × ℝ) (hm : 0 < am.2) :
    Complex.arg (angle_mag_to_complex am create_degrees_base)
      = normalize_deg am.1 * Real.pi / 180 := by
  rw [angle_mag_to_complex, cpowf_base,
    mul_comm (Complex.exp _) ((am.2 : ℝ) : ℂ), Complex.arg_real_mul _ hm, arg_exp_deg]

lemma abs_angle_mag (am : ℝ × ℝ) :
    Complex.abs (angle_mag_to_complex am create_degrees_base) = |am.2| := by
  rw [angle_mag_to_complex, cpowf_base, map_mul, Complex.abs_exp_ofReal_mul_I,
    one_mul, Complex.abs_ofReal]

/-! ### Concrete values of the rotation-base powers -/

lemma cpowf_zero_deg : cpowf create_degrees_base 0 = 1 := by
  rw [cpowf_base, show (0 : ℝ) * Real.pi / 180 = 0 by ring]
  simp

lemma cpowf_ninety_deg : cpowf create_degrees_base 90 = Complex.I := by
  rw [cpowf_base, show (90 : ℝ) * Real.pi / 180 = Real.pi / 2 by ring]
  simp [Complex.exp_mul_I, ← Complex.ofReal_cos, ← Complex.ofReal_sin,
    Real.cos_pi_div_two, Real.sin_pi_div_two]

lemma cpowf_oneeighty_deg : cpowf create_degrees_base 180 = -1 := by
  rw [cpowf_base, show (180 : ℝ) * Real.pi / 180 = Real.pi by ring,
    Complex.exp_pi_mul_I]

/-! ### Claim theorems -/

/-- C1 (code evidence): invoked with zero readings, none of the three variants
signals an error — each follows its non-finite code path (`total / 0.0`, resp.
a `0.0 / 0.0` normalization) and returns a pair with NaN components, here
marked `none`. -/
theorem C1_empty_input_nan :
    average_checked [] = none ∧ average_with_trig_checked [] = none
      ∧ average_optimized_checked [] = none := by
  refine ⟨?_, ?_, ?_⟩ <;>
    simp [average_checked, average_with_trig_checked, average_optimized_checked,
      trig_sums]

/-- C2 counterexample: on the two readings `(0°, 1)` and `(90°, 1)`,
`average` returns magnitude `√2/2 ≈ 0.707` while `average_with_trig` returns
magnitude `1`; the difference exceeds the claimed epsilon `0.1`. -/
theorem C2_counterexample :
    ¬ |(average_with_trig [((0 : ℝ), 1), ((90 : ℝ), 1)]).2
        - (average [((0 : ℝ), 1), ((90 : ℝ), 1)]).2| ≤ (0.1 : ℝ) := by
  have htot : total_of [((0 : ℝ), 1), ((90 : ℝ), 1)] = 1 + Complex.I := by
    simp [total_of, angle_mag_to_complex, cpowf_zero_deg, cpowf_ninety_deg]
  have hmagA : (average [((0 : ℝ), 1), ((90 : ℝ), 1)]).2 = Real.sqrt 2 / 2 := by
    rw [average_mag_abs, htot]
    have habs : Complex.abs (1 + Complex.I) = Real.sqrt 2 := by
      rw [Complex.abs_apply]
      norm_num [Complex.normSq_apply]
    rw [habs]
    norm_num
  have hs : trig_sums [((0 : ℝ), 1), ((90 : ℝ), 1)] ≠ ((0 : ℝ), (0 : ℝ)) := by
    apply (total_ne_zero_iff _).mp
    rw [htot]
    intro h
    have h1 := congrArg Complex.re h
    simp at h1
  rw [trig_mag_one _ hs, hmagA]
  have hsq := Real.sq_sqrt (by norm_num : (0 : ℝ) ≤ 2)
  have h0 := Real.sqrt_nonneg 2
  have hlt : Real.sqrt 2 < 1.8 := by nlinarith
  rw [abs_of_nonneg (by nlinarith)]
  nlinarith

/-- C2 (amended): for every non-empty reading set with nonzero aggregate, the
three variants return the same angle, and `average_optimized` returns exactly
the same pair as `average`; but `average_with_trig`'s magnitude is always `1`,
which need not be within `0.1` of the other variants' magnitude. -/
theorem C2_amended_agreement (r : List (ℝ × ℝ)) (hr : r ≠ [])
    (ht : total_of r ≠ 0) :
    (average r).1 = (average_with_trig r).1
      ∧ average_optimized r = average r
      ∧ (average_with_trig r).2 = 1 := by
  refine ⟨?_, opt_eq_avg r, trig_mag_one r ((total_ne_zero_iff r).mp ht)⟩
  rw [average_angle_arg r hr, trig_angle_arg r ht]

/-- Witness for C2 (amended) at the single reading `(0°, 1)`. -/
theorem C2_amended_witness :
    [((0 : ℝ), 1)] ≠ ([] : List (ℝ × ℝ))
      ∧ total_of [((0 : ℝ), 1)] ≠ 0
      ∧ ((average [((0 : ℝ), 1)]).1 = (average_with_trig [((0 : ℝ), 1)]).1
          ∧ average_optimized [((0 : ℝ), 1)] = average [((0 : ℝ), 1)]
          ∧ (average_with_trig [((0 : ℝ), 1)]).2 = 1) := by
  have hr : [((0 : ℝ), 1)] ≠ ([] : List (ℝ × ℝ)) := by simp
  have ht : total_of [((0 : ℝ), 1)] ≠ 0 := by
    simp [total_of, angle_mag_to_complex, cpowf_zero_deg]
  exact ⟨hr, ht, C2_amended_agreement _ hr ht⟩

/-- C3: for every non-empty reading set whose summed Cartesian vector is
nonzero, `average_with_trig` returns magnitude exactly `1`, because it
re-normalizes `(sum_x, sum_y)` by their own Euclidean norm before taking
`sqrt(sum_x² + sum_y²)`. -/
theorem C3_trig_magnitude_is_one (r : List (ℝ × ℝ)) (hr : r ≠ [])
    (hs : trig_sums r ≠ ((0 : ℝ), (0 : ℝ))) :
    (average_with_trig r).2 = 1 :=
  trig_mag_one r hs

/-- Witness for C3 at the single reading `(0°, 1)`. -/
theorem C3_witness :
    [((0 : ℝ), 1)] ≠ ([] : List (ℝ × ℝ))
      ∧ trig_sums [((0 : ℝ), 1)] ≠ ((0 : ℝ), (0 : ℝ))
      ∧ (average_with_trig [((0 : ℝ), 1)]).2 = 1 := by
  have hr : [((0 : ℝ), 1)] ≠ ([] : List (ℝ × ℝ)) := by simp
  have hs : trig_sums [((0 : ℝ), 1)] ≠ ((0 : ℝ), (0 : ℝ)) := by
    simp [trig_sums, reading_to_axis, Prod.ext_iff]
  exact ⟨hr, hs, C3_trig_magnitude_is_one _ hr hs⟩

/-- C4: `average_optimized` returns exactly the same `(angle, magnitude)` pair
as `average` on every reading set — the two functions are extensionally
equal. -/
theorem C4_optimized_extensionally_equals_average (r : List (ℝ × ℝ)) :
    average_optimized r = average r :=
  opt_eq_avg r

/-- C5 (code evidence): on the perfectly cancelling reading set
`[(0°, 1), (180°, 1)]` (aggregate exactly zero), every variant follows a
non-finite code path — `ln(0)` in the exponential variants, `0.0 / 0.0` in the
trigonometric one — instead of resolving the angle to a deterministic `0.0`. -/
theorem C5_cancellation_nan :
    average_checked [((0 : ℝ), 1), ((180 : ℝ), 1)] = none
      ∧ average_with_trig_checked [((0 : ℝ), 1), ((180 : ℝ), 1)] = none
      ∧ average_optimized_checked [((0 : ℝ), 1), ((180 : ℝ), 1)] = none := by
  have htot : total_of [((0 : ℝ), 1), ((180 : ℝ), 1)] = 0 := by
    simp [total_of, angle_mag_to_complex, cpowf_zero_deg, cpowf_oneeighty_deg]
  have hsums : trig_sums [((0 : ℝ), 1), ((180 : ℝ), 1)] = ((0 : ℝ), (0 : ℝ)) :=
    (not_iff_not.mp (total_ne_zero_iff _)).mp htot
  have hopt : total_opt [((0 : ℝ), 1), ((180 : ℝ), 1)] = 0 := by
    rw [total_opt_eq]
    exact htot
  refine ⟨?_, ?_, ?_⟩
  · simp [average_checked, htot]
  · simp [average_with_trig_checked, hsums]
  · simp [average_optimized_checked, hopt]

/-- C6: for every non-empty reading set with nonzero aggregate, the angle
returned by each of the three variants lies in the principal range
`(-180, 180]`. -/
theorem C6_angle_in_principal_range (r : List (ℝ × ℝ)) (hr : r ≠ [])
    (ht : total_of r ≠ 0) :
    (-180 < (average r).1 ∧ (average r).1 ≤ 180)
      ∧ (-180 < (average_with_trig r).1 ∧ (average_with_trig r).1 ≤ 180)
      ∧ (-180 < (average_optimized r).1 ∧ (average_optimized r).1 ≤ 180) := by
  have hπ := Real.pi_pos
  have harg1 := Complex.neg_pi_lt_arg (total_of r)
  have harg2 := Complex.arg_le_pi (total_of r)
  have hlow : -180 < Complex.arg (total_of r) * 180 / Real.pi := by
    rw [lt_div_iff hπ]
    linarith
  have hhigh : Complex.arg (total_of r) * 180 / Real.pi ≤ 180 := by
    rw [div_le_iff hπ]
    linarith
  rw [opt_eq_avg r, average_angle_arg r hr, trig_angle_arg r ht]
  exact ⟨⟨hlow, hhigh⟩, ⟨hlow, hhigh⟩, ⟨hlow, hhigh⟩⟩

/-- Witness for C6 at the single reading `(0°, 1)`. -/
theorem C6_witness :
    [((0 : ℝ), 1)] ≠ ([] : List (ℝ × ℝ))
      ∧ total_of [((0 : ℝ), 1)] ≠ 0
      ∧ ((-180 < (average [((0 : ℝ), 1)]).1 ∧ (average [((0 : ℝ), 1)]).1 ≤ 180)
          ∧ (-180 < (average_with_trig [((0 : ℝ), 1)]).1
              ∧ (average_with_trig [((0 : ℝ), 1)]).1 ≤ 180)
          ∧ (-180 < (average_optimized [((0 : ℝ), 1)]).1
              ∧ (average_optimized [((0 : ℝ), 1)]).1 ≤ 180)) := by
  have hr : [((0 : ℝ), 1)] ≠ ([] : List (ℝ × ℝ)) := by simp
  have ht : total_of [((0 : ℝ), 1)] ≠ 0 := by
    simp [total_of, angle_mag_to_complex, cpowf_zero_deg]
  exact ⟨hr, ht, C6_angle_in_principal_range _ hr ht⟩

/-- C7 counterexample: on the single reading `(0°, 2)` the claim fails for
`average_with_trig`, whose returned magnitude is `1`, not `2` (far beyond any
floating-point epsilon; the claim's tolerance `0.1` is used here). -/
theorem C7_counterexample :
    ¬ |(average_with_trig [((0 : ℝ), 2)]).2 - 2| ≤ (0.1 : ℝ) := by
  have hs : trig_sums [((0 : ℝ), 2)] ≠ ((0 : ℝ), (0 : ℝ)) := by
    simp [trig_sums, reading_to_axis, Prod.ext_iff]
  rw [trig_mag_one _ hs]
  have habs : |(1 : ℝ) - 2| = 1 := by
    rw [abs_of_nonpos] <;> norm_num
  rw [habs]
  norm_num

/-- C7 (amended): for a single reading `(θ, m)` with `m > 0`, `average` and
`average_optimized` return exactly `(θ normalized into (-180, 180], m)`, while
`average_with_trig` returns the same normalized angle but magnitude `1`
instead of `m`. -/
theorem C7_single_reading (θ m : ℝ) (hm : 0 < m) :
    average [(θ, m)] = (normalize_deg θ, m)
      ∧ average_optimized [(θ, m)] = (normalize_deg θ, m)
      ∧ average_with_trig [(θ, m)] = (normalize_deg θ, 1) := by
  have hπ := Real.pi_ne_zero
  have htot : total_of [(θ, m)] = angle_mag_to_complex (θ, m) create_degrees_base := by
    simp [total_of]
  have habs : Complex.abs (total_of [(θ, m)]) = m := by
    rw [htot, abs_angle_mag]
    exact abs_of_pos hm
  have hne : total_of [(θ, m)] ≠ 0 := by
    intro h
    rw [h] at habs
    simp at habs
    exact hm.ne (by linarith)
  have harg : Complex.arg (total_of [(θ, m)]) = normalize_deg θ * Real.pi / 180 := by
    rw [htot]
    exact arg_angle_mag (θ, m) hm
  have hdeg : Complex.arg (total_of [(θ, m)]) * 180 / Real.pi = normalize_deg θ := by
    rw [harg]
    field_simp
  have hr : [(θ, m)] ≠ ([] : List (ℝ × ℝ)) := by simp
  have hA : average [(θ, m)] = (normalize_deg θ, m) := by
    rw [Prod.ext_iff]
    refine ⟨?_, ?_⟩
    · rw [average_angle_arg _ hr, hdeg]
    · rw [average_mag_abs, habs]
      simp
  refine ⟨hA, by rw [opt_eq_avg]; exact hA, ?_⟩
  rw [Prod.ext_iff]
  refine ⟨?_, trig_mag_one _ ((total_ne_zero_iff _).mp hne)⟩
  rw [trig_angle_arg _ hne, hdeg]

/-- Witness for C7 (amended) at the single reading `(90°, 2)`. -/
theorem C7_witness :
    (0 : ℝ) < 2
      ∧ (average [((90 : ℝ), 2)] = (normalize_deg 90, 2)
          ∧ average_optimized [((90 : ℝ), 2)] = (normalize_deg 90, 2)
          ∧ average_with_trig [((90 : ℝ), 2)] = (normalize_deg 90, 1)) :=
  ⟨by norm_num, C7_single_reading 90 2 (by norm_num)⟩

/-- C8: every variant is invariant under permutations of the reading set —
the returned pair on a permuted set is exactly the returned pair on the
original. -/
theorem C8_permutation_invariance (r s : List (ℝ × ℝ)) (h : r.Perm s) :
    average r = average s
      ∧ average_with_trig r = average_with_trig s
      ∧ average_optimized r = average_optimized s := by
  have htot : total_of r = total_of s := List.Perm.sum_eq (h.map _)
  have hlen : r.length = s.length := h.length_eq
  have havg : average r = average s := by
    rw [average_def, average_def, htot, hlen]
  refine ⟨havg, ?_, ?_⟩
  · have hx : trig_sums r = trig_sums s := by
      rw [trig_sums_eq, trig_sums_eq,
        List.Perm.sum_eq ((h.map reading_to_axis).map Prod.fst),
        List.Perm.sum_eq ((h.map reading_to_axis).map Prod.snd)]
    rw [average_with_trig_def, average_with_trig_def, hx]
  · rw [opt_eq_avg, opt_eq_avg, havg]

/-- Witness for C8: swapping the two readings `(0°, 1)` and `(90°, 1)`. -/
theorem C8_witness :
    average [((0 : ℝ), 1), ((90 : ℝ), 1)] = average [((90 : ℝ), 1), ((0 : ℝ), 1)]
      ∧ average_with_trig [((0 : ℝ), 1), ((90 : ℝ), 1)]
          = average_with_trig [((90 : ℝ), 1), ((0 : ℝ), 1)]
      ∧ average_optimized [((0 : ℝ), 1), ((90 : ℝ), 1)]
          = average_optimized [((90 : ℝ), 1), ((0 : ℝ), 1)] :=
  C8_permutation_invariance _ _ (List.Perm.swap _ _ _)

/-- C9: `reading_to_axis` returns the Cartesian pair
`(magnitude·cos(angle·π/180), magnitude·sin(angle·π/180))`. -/
theorem C9_reading_to_axis_formula (am : ℝ × ℝ) :
    reading_to_axis am
      = (am.2 * Real.cos (am.1 * Real.pi / 180),
         am.2 * Real.sin (am.1 * Real.pi / 180)) := by
  have h : reading_to_axis am
      = (Real.cos (am.1 * Real.pi / 180) * am.2,
         Real.sin (am.1 * Real.pi / 180) * am.2) := rfl
  rw [h, Prod.ext_iff]
  exact ⟨mul_comm _ _, mul_comm _ _⟩

/-- C10: for every nonzero complex aggregate `z`, the real part of
`ln(z) / ln(base)` with `base = e^{i·2π/360}` equals
`atan2(Im z, Re z) / (2π/360)`, the angle in degrees. -/
theorem C10_log_ratio_is_atan2 (z : ℂ) (hz : z ≠ 0) :
    (Complex.log z / Complex.log create_degrees_base).re
      = atan2 z.im z.re / (2 * Real.pi / 360) := by
  have hπ := Real.pi_ne_zero
  rw [resolve_re, atan2, Complex.re_add_im]
  field_simp
  ring

/-- Witness for C10 at `z = i`. -/
theorem C10_witness :
    (Complex.I : ℂ) ≠ 0
      ∧ (Complex.log Complex.I / Complex.log create_degrees_base).re
          = atan2 (Complex.I).im (Complex.I).re / (2 * Real.pi / 360) :=
  ⟨Complex.I_ne_zero, C10_log_ratio_is_atan2 Complex.I Complex.I_ne_zero⟩

end

end Sdr
